import Mathlib

/-!
Shallow embedding of the typed pipeline routing/composition core
(`pipeline/core.py`) and proofs about it.

Modelling conventions:
* A Python type object used as a type tag is modelled by `Ty := Nat`;
  `_typematch = operator.is_` (exact identity of type objects) becomes
  equality of tags.
* Python run-time values (the untyped universe all wrapped functions act
  on) are modelled by `Val := Nat`; a wrapped single-argument callable is
  a Lean function `Val → Val`.
* `raise` is modelled by returning `.error` in `Except PErr`; the error
  kinds mirror the exception classes of `core.py` plus the generic
  `ValueError` cases.
* Checks that are statically guaranteed by the Lean embedding are not
  modelled: `isinstance(..., Map)` / `isinstance(..., Router)` checks and
  `inspect.isclass` checks on type tags cannot fail here because members
  are `Map`s and tags are `Ty` by type.
-/

/-- Type tags: opaque identity-comparable descriptors (`_typematch = op.is_`). -/
abbrev Ty := Nat

/-- The untyped universe of Python run-time values flowing through maps. -/
abbrev Val := Nat

/-- Error kinds raised by `core.py`.  `ambiguous` / `noRoute` model
`AmbiguousError(input, output)` / `NoRouteError(input, output)` carrying the
arguments given to the constructor; `valueError` models a plain `ValueError`
raised outside the taxonomy of the module (e.g. sequence unpacking). -/
inductive PErr where
  | invalidCallable
  | notComposable
  | redundancy
  | ambiguous (input output : Ty)
  | noRoute (input output : Ty)
  | valueError
  deriving DecidableEq

/-- `Map` (`TypedTransform`): domain and codomain tags plus the wrapped
single-argument function (`core.py` lines 59-127). -/
structure Map where
  domain : Ty
  codomain : Ty
  f : Val → Val

/-- `Map.signature` property: the pair `(domain, codomain)`. -/
def Map.signature (m : Map) : Ty × Ty := (m.domain, m.codomain)

/-- `_signmatch`: two signatures match iff both components match under
`_typematch` (exact identity). -/
def signmatch (a b : Map) : Bool :=
  a.domain == b.domain && a.codomain == b.codomain

/-- `_composable`: the codomain of the left map matches the domain of the right map. -/
def composableB (l r : Map) : Bool :=
  l.codomain == r.domain

/-- The success path of `Map.__rshift__`: compose two maps, applying the left
function first (`self._f >> other._f`). -/
def Map.comp (l r : Map) : Map :=
  ⟨l.domain, r.codomain, fun x => r.f (l.f x)⟩

/-- `Map.__rshift__` (`TypedTransform.compose`): fails when the operands are
not composable, otherwise returns the composition. -/
def Map.rshift (l r : Map) : Except PErr Map :=
  if composableB l r then .ok (Map.comp l r) else .error .notComposable

/-- `_redundant`: some pair of maps (over `itertools.combinations`, i.e. each
earlier member against each later member) has matching signatures. -/
def redundant : List Map → Bool
  | [] => false
  | m :: rest => rest.any (signmatch m) || redundant rest

/-! ### Callable validation in `Map.__init__` (lines 76-89)

`inspect.signature` introspection is modelled by an explicit descriptor of
the callable: whether the object is callable at all, and its parameter list
(kind and presence of a default value for each parameter). -/

/-- The `inspect.Parameter.kind` values. -/
inductive ParamKind where
  | positionalOnly
  | positionalOrKeyword
  | varPositional
  | keywordOnly
  | varKeyword
  deriving DecidableEq

/-- One parameter of the signature of a callable. -/
structure Param where
  kind : ParamKind
  hasDefault : Bool
  deriving DecidableEq

/-- Descriptor of the `f` argument passed to `Map.__init__`. -/
structure FuncSpec where
  isCallable : Bool
  params : List Param
  deriving DecidableEq

/-- Membership in `POS_ARGS` (`core.py` lines 16-20). -/
def posKind (k : ParamKind) : Bool :=
  k == .positionalOnly || k == .positionalOrKeyword || k == .varPositional

/-- `positional` in `Map.__init__`: the parameters whose kind is in
`POS_ARGS`. -/
def positionalParams (fs : FuncSpec) : List Param :=
  fs.params.filter (fun p => posKind p.kind)

/-- `nrequired` in `Map.__init__`: positional parameters that are not
var-positional and have no default value. -/
def nrequired (fs : FuncSpec) : Nat :=
  ((positionalParams fs).filter
    (fun p => !(p.kind == .varPositional) && !p.hasDefault)).length

/-- The callable-validation part of `Map.__init__` (lines 76-89): not
callable, more than one required positional argument, and no positional
arguments at all are each rejected, in that order. -/
def mapCheckF (fs : FuncSpec) : Except PErr Unit :=
  if !fs.isCallable then .error .invalidCallable
  else if nrequired fs > 1 then .error .invalidCallable
  else if (positionalParams fs).length < 1 then .error .invalidCallable
  else .ok ()

/-! ### `Router` (`TransformSet`) -/

/-- `Router`: a named tuple of maps.  In Python every live `Router` instance
has passed `Router.__init__`; construction is modelled by `routerInit`. -/
structure Router where
  name : String
  maps : List Map

/-- `Router.__init__` (lines 135-141): fails with `RedundancyError` when two
members share a signature.  (The `isinstance` member check is statically
guaranteed here.) -/
def routerInit (name : String) (maps : List Map) : Except PErr Router :=
  if redundant maps then .error .redundancy else .ok ⟨name, maps⟩

/-- `Router.domains`: the domains of all members, in member order. -/
def Router.domains (r : Router) : List Ty := r.maps.map Map.domain

/-- `Router.codomains`: the codomains of all members, in member order. -/
def Router.codomains (r : Router) : List Ty := r.maps.map Map.codomain

/-- `match_any` inside `Router.constrain`: `None` means unconstrained,
otherwise some option must `_typematch` the tag. -/
def matchAny (t : Ty) : Option (List Ty) → Bool
  | none => true
  | some options => options.any (fun o => t == o)

/-- `Router.constrain` (lines 192-213): with both constraints `None` the very
same router is returned; otherwise the members satisfying both constraints
are kept, in order, and the result is rebuilt through `Router.__init__`.
(The `inspect.isclass` check on constraint entries is statically guaranteed
here.) -/
def Router.constrain (self : Router)
    (domains codomains : Option (List Ty)) : Except PErr Router :=
  match domains, codomains with
  | none, none => .ok self
  | ds, cs =>
    routerInit self.name
      (self.maps.filter fun m =>
        matchAny m.domain ds && matchAny m.codomain cs)

/-- `Router.__rshift__` (lines 175-190): stage composition.  If either
operand is empty, an empty router with the derived name is built.  Otherwise
both operands are pre-filtered by `constrain`, every composable pair of the
Cartesian product `left.maps × right.maps` (left member order outer, right
member order inner) is composed, and the result is rebuilt through
`Router.__init__`.  The `starmap(op.rshift)` step only ever sees pairs that
passed the `_composable` filter, so the failure branch of `Map.__rshift__`
is dead there and `Map.comp` is its value. -/
def Router.rshift (self other : Router) : Except PErr Router :=
  let name := self.name ++ " -> " ++ other.name
  if self.maps.isEmpty || other.maps.isEmpty then
    routerInit name []
  else
    match self.constrain none (some other.domains) with
    | .error e => .error e
    | .ok left =>
      match other.constrain (some left.codomains) none with
      | .error e => .error e
      | .ok right =>
        routerInit name
          (left.maps.flatMap fun l =>
            (right.maps.filter fun r => composableB l r).map (Map.comp l))

/-! ### `pcompile` (lines 216-240) -/

/-- `reduce(op.rshift, tail, start)`: left fold of stage composition, with
the first raised error propagating. -/
def foldStages : Router → List Router → Except PErr Router
  | acc, [] => .ok acc
  | acc, r :: rest =>
    match Router.rshift acc r with
    | .error e => .error e
    | .ok c => foldStages c rest

/-- The `try` block of `pcompile`: constrain the domain of the head stage to
`[input]` and fold the remaining stages onto it with `>>`. -/
def foldFromHead (head : Router) (tail : List Router)
    (input : Ty) : Except PErr Router :=
  match head.constrain (some [input]) none with
  | .error e => .error e
  | .ok start => foldStages start tail

/-- The part of `pcompile` that produces the final constrained router:
a single stage is constrained to `([input], [output])` directly; an empty
stage list hits the `head, *tail = routers` unpacking and raises a plain
`ValueError`; with two or more stages the head is constrained to
`([input], None)`, the tail is folded on by `>>`, a `RedundancyError` from
that `try` block is re-raised as `AmbiguousError(input, output)`, and the
fold result is constrained to `(None, [output])`. -/
def pcompileConstrained (routers : List Router)
    (input output : Ty) : Except PErr Router :=
  match routers with
  | [r] => r.constrain (some [input]) (some [output])
  | [] => .error .valueError
  | head :: tail =>
    match foldFromHead head tail input with
    | .error .redundancy => .error (.ambiguous input output)
    | .error e => .error e
    | .ok composed => composed.constrain none (some [output])

/-- `pcompile`: raise `NoRouteError(input, output)` when the constrained
router is empty, otherwise return its first member (`constrained.maps[0]`). -/
def pcompile (routers : List Router) (input output : Ty) : Except PErr Map :=
  match pcompileConstrained routers input output with
  | .error e => .error e
  | .ok constrained =>
    match constrained.maps with
    | [] => .error (.noRoute input output)
    | m :: _ => .ok m

/-- The message built by `AmbiguousError.__init__` (lines 48-51), from the
`input.__name__` / `output.__name__` strings it receives.  The source
concatenates an f-string first half with a PLAIN (non-f) second string, so
the placeholders are literal text and the received arguments are unused. -/
def ambiguousErrorMessage (_input _output : String) : String :=
  "there are several valid routes " ++ "from \x7binput\x7d to \x7boutput\x7d"

/-- The message built by `NoRouteError.__init__` (lines 54-56); here the
whole literal is an f-string, so the arguments are interpolated. -/
def noRouteErrorMessage (input output : String) : String :=
  "there is no route from " ++ input ++ " to " ++ output

/-! ### Helper lemmas -/

/-- Identity matching of type tags is symmetric. -/
theorem beq_comm_ty (a b : Ty) : (a == b) = (b == a) := by
  rw [Bool.eq_iff_iff]
  simp only [beq_iff_eq]
  exact eq_comm

/-- `_signmatch` is symmetric in its two maps. -/
theorem signmatch_comm (a b : Map) : signmatch a b = signmatch b a := by
  simp only [signmatch]
  rw [beq_comm_ty a.domain b.domain, beq_comm_ty a.codomain b.codomain]

/-- Characterization of a successful `Router.__init__`. -/
theorem routerInit_ok {n : String} {ms : List Map} {r : Router}
    (h : routerInit n ms = .ok r) :
    r.name = n ∧ r.maps = ms ∧ redundant ms = false := by
  unfold routerInit at h
  split at h
  · cases h
  · next hred =>
      cases h
      exact ⟨rfl, rfl, by simpa using hred⟩

/-- `Router.__init__` fails exactly on redundant member lists. -/
theorem routerInit_error {n : String} {ms : List Map}
    (h : redundant ms = true) : routerInit n ms = .error .redundancy := by
  simp [routerInit, h]

/-- Non-redundancy is pairwise signature distinctness over `combinations`. -/
theorem redundant_false_iff (ms : List Map) :
    redundant ms = false ↔ ms.Pairwise (fun a b => signmatch a b = false) := by
  induction ms with
  | nil => simp [redundant]
  | cons m rest ih =>
      simp [redundant, List.pairwise_cons, ih, List.any_eq_false]

/-- A list holding two maps with matching signatures anywhere is redundant. -/
theorem redundant_of_pair {pre mid post : List Map} {a b : Map}
    (hs : signmatch a b = true) :
    redundant (pre ++ a :: (mid ++ b :: post)) = true := by
  cases hred : redundant (pre ++ a :: (mid ++ b :: post)) with
  | true => rfl
  | false =>
      exfalso
      have hpw := (redundant_false_iff _).mp hred
      have htail := (List.pairwise_append.mp hpw).2.1
      have hb : b ∈ mid ++ b :: post :=
        List.mem_append_right mid (List.mem_cons_self b post)
      have := (List.pairwise_cons.mp htail).1 b hb
      rw [hs] at this
      exact Bool.true_eq_false.mp this

/-- In a non-redundant list in which every map carries the same signature
there is at most one member. -/
theorem sig_constant_subsingleton {ms : List Map} {i o : Ty}
    (hnr : redundant ms = false)
    (hall : ∀ x ∈ ms, x.domain = i ∧ x.codomain = o) :
    ms = [] ∨ ∃ m, ms = [m] := by
  match ms with
  | [] => exact Or.inl rfl
  | [m] => exact Or.inr ⟨m, rfl⟩
  | a :: b :: tl =>
      exfalso
      have ha := hall a (List.mem_cons_self a (b :: tl))
      have hb := hall b (List.mem_cons_of_mem a (List.mem_cons_self b tl))
      have hmatch : signmatch a b = true := by
        simp [signmatch, ha.1, ha.2, hb.1, hb.2]
      simp [redundant, hmatch] at hnr

/-- Characterization of a successful `Router.constrain`: the result keeps the
name and filters the members by both constraints. -/
theorem constrain_ok {r : Router} {ds cs : Option (List Ty)} {c : Router}
    (h : Router.constrain r ds cs = .ok c) :
    c.name = r.name ∧
    c.maps = r.maps.filter
      (fun m => matchAny m.domain ds && matchAny m.codomain cs) := by
  match ds, cs with
  | none, none =>
      cases h
      constructor
      · rfl
      · simp [matchAny]
  | none, some os =>
      have := routerInit_ok h
      exact ⟨this.1, this.2.1⟩
  | some ds0, none =>
      have := routerInit_ok h
      exact ⟨this.1, this.2.1⟩
  | some ds0, some os =>
      have := routerInit_ok h
      exact ⟨this.1, this.2.1⟩

/-- A successful `Router.constrain` with a codomain constraint went through
`Router.__init__`, so its result is non-redundant. -/
theorem constrain_some_cod_ok {r : Router} {ds : Option (List Ty)}
    {os : List Ty} {c : Router}
    (h : Router.constrain r ds (some os) = .ok c) :
    redundant c.maps = false := by
  match ds with
  | none =>
      have := routerInit_ok h
      exact this.2.1 ▸ this.2.2
  | some ds0 =>
      have := routerInit_ok h
      exact this.2.1 ▸ this.2.2

/-- Prepending a filter whose failures contribute nothing to a `flatMap`
does not change the `flatMap`. -/
theorem flatMap_filter_of_nil {α β : Type} {p : α → Bool} {g : α → List β}
    {l : List α} (h : ∀ x ∈ l, p x = false → g x = []) :
    (l.filter p).flatMap g = l.flatMap g := by
  induction l with
  | nil => rfl
  | cons x xs ih =>
      have hxs : ∀ y ∈ xs, p y = false → g y = [] :=
        fun y hy => h y (List.mem_cons_of_mem x hy)
      cases hp : p x with
      | true => simp [List.filter_cons, hp, ih hxs]
      | false =>
          simp [List.filter_cons, hp, ih hxs,
            h x (List.mem_cons_self x xs) hp]

/-- Pre-filtering both sides of a filtered Cartesian product is the identity
when the left filter keeps every element with a partner and the right filter
keeps every element that is the partner of some kept left element. -/
theorem flatMap_filter_prod {α β γ : Type} (LA : List α) (LB : List β)
    (q : α → β → Bool) (pL : α → Bool) (pR : β → Bool) (g : α → β → γ)
    (hL : ∀ l ∈ LA, pL l = false → ∀ r ∈ LB, q l r = false)
    (hR : ∀ l ∈ LA, pL l = true → ∀ r ∈ LB, q l r = true → pR r = true) :
    ((LA.filter pL).flatMap fun l =>
        ((LB.filter pR).filter (q l)).map (g l))
      = LA.flatMap fun l => (LB.filter (q l)).map (g l) := by
  have hstep : ∀ l ∈ LA.filter pL,
      ((LB.filter pR).filter (q l)).map (g l)
        = (LB.filter (q l)).map (g l) := by
    intro l hl
    have hmem := List.mem_filter.mp hl
    congr 1
    rw [List.filter_filter]
    apply List.filter_congr
    intro r hr
    cases hq : q l r with
    | false => simp
    | true => simp [hR l hmem.1 hmem.2 r hr hq]
  rw [List.flatMap_congr hstep]
  apply flatMap_filter_of_nil
  intro l hl hpl
  have : LB.filter (q l) = [] := by
    apply List.filter_eq_nil_iff.mpr
    intro r hr
    simp [hL l hl hpl r hr]
  simp [this]


/-- `any` over a mapped list tests the composed predicate. -/
theorem any_map_proj {α β : Type} (f : α → β) (p : β → Bool) (l : List α) :
    (l.map f).any p = l.any fun x => p (f x) := by
  induction l with
  | nil => rfl
  | cons x xs ih => simp [List.any_cons, ih]

/-- Characterization of a successful stage composition `Router.__rshift__`:
the derived name, the members as the composable part of the full Cartesian
product in product order, and non-redundancy of the result. -/
theorem rshift_ok {A B C : Router} (h : Router.rshift A B = .ok C) :
    C.name = A.name ++ " -> " ++ B.name ∧
    C.maps = A.maps.flatMap
      (fun l => (B.maps.filter fun r => composableB l r).map (Map.comp l)) ∧
    redundant C.maps = false := by
  unfold Router.rshift at h
  split at h
  · next hempty =>
      obtain ⟨hn, hm, hr⟩ := routerInit_ok h
      refine ⟨hn, ?_, by rw [hm]; exact hr⟩
      rcases Bool.or_eq_true_iff.mp hempty with he | he
      · rw [hm, List.isEmpty_iff.mp he]
        rfl
      · rw [hm, List.isEmpty_iff.mp he]
        exact (List.flatMap_eq_nil_iff.mpr (fun _ _ => rfl)).symm
  · next hne =>
      split at h
      · cases h
      · next left hleft =>
          split at h
          · cases h
          · next right hright =>
              obtain ⟨hlname, hlmaps⟩ := constrain_ok hleft
              obtain ⟨hrname, hrmaps⟩ := constrain_ok hright
              obtain ⟨hn, hm, hr⟩ := routerInit_ok h
              refine ⟨hn, ?_, by rw [hm]; exact hr⟩
              have hdom : ∀ m : Map,
                  (matchAny m.domain none &&
                    matchAny m.codomain (some B.domains))
                    = B.maps.any fun r => composableB m r := by
                intro m
                simp only [matchAny, Bool.true_and, Router.domains,
                  composableB]
                exact any_map_proj Map.domain (fun o => m.codomain == o) B.maps
              have hcod : ∀ m : Map,
                  (matchAny m.domain (some left.codomains) &&
                    matchAny m.codomain none)
                    = left.maps.any fun l => m.domain == l.codomain := by
                intro m
                simp only [matchAny, Bool.and_true, Router.codomains]
                exact any_map_proj Map.codomain
                  (fun o => m.domain == o) left.maps
              have epd : A.maps.filter
                  (fun m => matchAny m.domain none &&
                    matchAny m.codomain (some B.domains))
                  = A.maps.filter
                    (fun l => B.maps.any fun r => composableB l r) :=
                List.filter_congr (fun m _ => hdom m)
              have epc : B.maps.filter
                  (fun m => matchAny m.domain (some left.codomains) &&
                    matchAny m.codomain none)
                  = B.maps.filter
                    (fun r => (A.maps.filter
                        (fun l => B.maps.any fun r2 => composableB l r2)).any
                      fun l => r.domain == l.codomain) := by
                apply List.filter_congr
                intro m _
                exact (hcod m).trans (by rw [hlmaps, epd])
              rw [hm, hlmaps, hrmaps, epd, epc]
              apply flatMap_filter_prod
              · intro l _ hpl r hr
                cases hq : composableB l r with
                | false => rfl
                | true =>
                    have hany : B.maps.any (fun r2 => composableB l r2)
                        = true := List.any_eq_true.mpr ⟨r, hr, hq⟩
                    rw [hany] at hpl
                    cases hpl
              · intro l hl hpl r _ hq
                apply List.any_eq_true.mpr
                refine ⟨l, List.mem_filter.mpr ⟨hl, hpl⟩, ?_⟩
                have hq2 : l.codomain = r.domain := by
                  simpa [composableB] using hq
                simp [hq2]

/-- Stage folding preserves any property of member domains: each composition
step keeps the domain of a left-hand member. -/
theorem foldStages_domain_inv {P : Ty → Prop} :
    ∀ (tail : List Router) (start c : Router),
      (∀ m ∈ start.maps, P m.domain) →
      foldStages start tail = .ok c → ∀ m ∈ c.maps, P m.domain := by
  intro tail
  induction tail with
  | nil =>
      intro start c hs h
      cases h
      exact hs
  | cons r rest ih =>
      intro start c hs h
      unfold foldStages at h
      split at h
      · cases h
      · next mid hmid =>
          refine ih mid c ?_ h
          intro m hm
          obtain ⟨-, hmaps, -⟩ := rshift_ok hmid
          rw [hmaps] at hm
          obtain ⟨l, hl, hml⟩ := List.mem_flatMap.mp hm
          obtain ⟨r2, hr2, rfl⟩ := List.mem_map.mp hml
          exact hs l hl

/-- Every member surviving the fold of `pcompile` has the requested input type as
its domain. -/
theorem foldFromHead_domains {head : Router} {tail : List Router} {i : Ty}
    {c : Router} (h : foldFromHead head tail i = .ok c) :
    ∀ m ∈ c.maps, m.domain = i := by
  unfold foldFromHead at h
  split at h
  · cases h
  · next start hstart =>
      refine @foldStages_domain_inv (fun d => d = i) tail start c ?_ h
      intro m hm
      obtain ⟨-, hmaps⟩ := constrain_ok hstart
      rw [hmaps] at hm
      have hp := (List.mem_filter.mp hm).2
      simpa [matchAny] using hp

/-- Reduction of `pcompileConstrained` on the single-stage shape. -/
theorem pcompileConstrained_single (r : Router) (i o : Ty) :
    pcompileConstrained [r] i o = r.constrain (some [i]) (some [o]) := rfl

/-- Reduction of `pcompileConstrained` on the multi-stage shape. -/
theorem pcompileConstrained_cons_cons (r1 r2 : Router) (rest : List Router)
    (i o : Ty) :
    pcompileConstrained (r1 :: r2 :: rest) i o =
      match foldFromHead r1 (r2 :: rest) i with
      | .error .redundancy => .error (.ambiguous i o)
      | .error e => .error e
      | .ok composed => composed.constrain none (some [o]) := rfl

/-- The router produced by the folding-and-constraining part of `pcompile`
is non-redundant, and all its members go exactly from the requested input
type to the requested output type. -/
theorem pcompileConstrained_ok {routers : List Router} {i o : Ty} {c : Router}
    (h : pcompileConstrained routers i o = .ok c) :
    redundant c.maps = false ∧
    ∀ m ∈ c.maps, m.domain = i ∧ m.codomain = o := by
  match routers with
  | [] => cases h
  | [r] =>
      have h2 : Router.constrain r (some [i]) (some [o]) = .ok c := h
      refine ⟨constrain_some_cod_ok h2, ?_⟩
      intro m hm
      obtain ⟨-, hmaps⟩ := constrain_ok h2
      rw [hmaps] at hm
      have hp := (List.mem_filter.mp hm).2
      constructor
      · have := Bool.and_elim_left hp
        simpa [matchAny] using this
      · have := Bool.and_elim_right hp
        simpa [matchAny] using this
  | r1 :: r2 :: rest =>
      rw [pcompileConstrained_cons_cons] at h
      split at h
      · cases h
      · cases h
      · next composed hf =>
          refine ⟨constrain_some_cod_ok h, ?_⟩
          intro m hm
          obtain ⟨-, hmaps⟩ := constrain_ok h
          rw [hmaps] at hm
          have hmem := List.mem_filter.mp hm
          constructor
          · exact foldFromHead_domains hf m hmem.1
          · have := Bool.and_elim_right hmem.2
            simpa [matchAny] using this

/-! ### Claim theorems -/

/-- Claim C9: `constrain(None, None)` returns the very same `TransformSet`
unchanged (the identity optimization in `Router.constrain`), for every
`TransformSet`. -/
theorem constrain_none_none_identity (r : Router) :
    Router.constrain r none none = .ok r := rfl

/-- Claim C8: a returning `constrain` keeps the name of its router and contains
exactly the members whose domain satisfies the domain constraint (`None`
meaning unconstrained) and whose codomain satisfies the codomain constraint,
in original member order: no member satisfying both is dropped and no member
violating either is kept. -/
theorem constrain_filters (r : Router) (ds cs : Option (List Ty)) (c : Router)
    (h : Router.constrain r ds cs = .ok c) :
    c.name = r.name ∧
    c.maps = r.maps.filter
      (fun m => matchAny m.domain ds && matchAny m.codomain cs) ∧
    (∀ m ∈ r.maps, matchAny m.domain ds = true →
      matchAny m.codomain cs = true → m ∈ c.maps) ∧
    (∀ m ∈ c.maps, m ∈ r.maps ∧ matchAny m.domain ds = true ∧
      matchAny m.codomain cs = true) := by
  obtain ⟨hn, hm⟩ := constrain_ok h
  refine ⟨hn, hm, ?_, ?_⟩
  · intro m hmem hd hc2
    rw [hm]
    exact List.mem_filter.mpr ⟨hmem, by simp [hd, hc2]⟩
  · intro m hmem
    rw [hm] at hmem
    have hmf := List.mem_filter.mp hmem
    exact ⟨hmf.1, Bool.and_elim_left hmf.2, Bool.and_elim_right hmf.2⟩

/-- Witness for C8 at a concrete router and constraints. -/
theorem constrain_filters_witness :
    (⟨"w", [⟨0, 1, id⟩]⟩ : Router).name
        = (⟨"w", [⟨0, 1, id⟩, ⟨2, 3, id⟩]⟩ : Router).name ∧
    (⟨"w", [⟨0, 1, id⟩]⟩ : Router).maps
        = (⟨"w", [⟨0, 1, id⟩, ⟨2, 3, id⟩]⟩ : Router).maps.filter
          (fun m => matchAny m.domain (some [0]) && matchAny m.codomain none) :=
  ⟨(constrain_filters ⟨"w", [⟨0, 1, id⟩, ⟨2, 3, id⟩]⟩ (some [0]) none
      ⟨"w", [⟨0, 1, id⟩]⟩ rfl).1,
   (constrain_filters ⟨"w", [⟨0, 1, id⟩, ⟨2, 3, id⟩]⟩ (some [0]) none
      ⟨"w", [⟨0, 1, id⟩]⟩ rfl).2.1⟩

/-- Claim C3: composing two TypedTransforms succeeds iff the left codomain is
identically the right domain, failing with `NotComposable` otherwise; on
success the result has the left domain, the right codomain, and applies the
left function then the right function. -/
theorem map_compose_spec (l r : Map) :
    (l.codomain = r.domain →
      Map.rshift l r = .ok ⟨l.domain, r.codomain, fun x => r.f (l.f x)⟩) ∧
    (l.codomain ≠ r.domain → Map.rshift l r = .error .notComposable) := by
  constructor
  · intro h
    simp [Map.rshift, composableB, Map.comp, h]
  · intro h
    simp [Map.rshift, composableB, h]

/-- Witness for C3: one composable pair and one non-composable pair. -/
theorem map_compose_spec_witness :
    Map.rshift ⟨0, 1, id⟩ ⟨1, 2, Nat.succ⟩
      = .ok ⟨0, 2, fun x => Nat.succ (id x)⟩ ∧
    Map.rshift ⟨0, 1, id⟩ ⟨2, 3, Nat.succ⟩ = .error .notComposable :=
  ⟨(map_compose_spec ⟨0, 1, id⟩ ⟨1, 2, Nat.succ⟩).1 rfl,
   (map_compose_spec ⟨0, 1, id⟩ ⟨2, 3, Nat.succ⟩).2 (by simp)⟩

/-- A callable whose only positional parameter carries a default value. -/
def fsDefaultOnly : FuncSpec :=
  ⟨true, [⟨.positionalOrKeyword, true⟩]⟩

/-- Claim C4 counterexample: a callable whose only positional parameter has a
default value has zero required positional parameters, yet the validation in
`Map.__init__` ACCEPTS it — the code only rejects when the positional
parameter list is empty (`len(positional) < 1`), not when the required count
is zero — contradicting the claim that zero required positional parameters
fails with `InvalidCallable`. -/
theorem map_callable_check_counterexample :
    fsDefaultOnly.isCallable = true ∧ nrequired fsDefaultOnly = 0 ∧
    mapCheckF fsDefaultOnly = .ok () ∧
    ¬ mapCheckF fsDefaultOnly = .error .invalidCallable :=
  ⟨rfl, rfl, rfl, fun h => Except.noConfusion h⟩

/-- Claim C4 (amended): the function validation of `Map.__init__` fails with
`InvalidCallable` iff the argument is not callable, or has more than one
required positional parameter, or has no positional parameters at all
(counting defaulted positional and var-positional parameters as
positional); a callable with at least one positional parameter but zero
required ones is accepted. -/
theorem map_callable_check_amended (fs : FuncSpec) :
    mapCheckF fs = .error .invalidCallable ↔
      (fs.isCallable = false ∨ 1 < nrequired fs ∨
        positionalParams fs = []) := by
  unfold mapCheckF
  split_ifs with h1 h2 h3
  · simp only [Bool.not_eq_eq_eq_not, Bool.not_true] at h1
    simp [h1]
  · simp [h2]
  · simp [List.length_eq_zero.mp (Nat.lt_one_iff.mp h3)]
  · have e1 : ¬ fs.isCallable = false := by
      simp only [Bool.not_eq_eq_eq_not, Bool.not_true] at h1
      simp [h1]
    have e3 : ¬ positionalParams fs = [] := by
      intro he
      exact h3 (by simp [he])
    simp [e1, h2, e3]

/-- Claim C2: the non-redundancy invariant.  Signature matching is symmetric;
direct construction with two signature-sharing members anywhere in the list
fails with `RedundancyError` (so in either member order); every successfully
constructed router has pairwise distinct member signatures; and the routers
produced by `constrain` (from an invariant-satisfying router) and by stage
composition `>>` satisfy the invariant again. -/
theorem router_redundancy_invariant :
    (∀ a b : Map, signmatch a b = signmatch b a) ∧
    (∀ (n : String) (pre mid post : List Map) (a b : Map),
      signmatch a b = true →
      routerInit n (pre ++ a :: (mid ++ b :: post)) = .error .redundancy) ∧
    (∀ (n : String) (ms : List Map) (r : Router), routerInit n ms = .ok r →
      r.maps.Pairwise fun x y => signmatch x y = false) ∧
    (∀ (r : Router) (ds cs : Option (List Ty)) (c : Router),
      (r.maps.Pairwise fun x y => signmatch x y = false) →
      Router.constrain r ds cs = .ok c →
      c.maps.Pairwise fun x y => signmatch x y = false) ∧
    (∀ (a b c : Router), Router.rshift a b = .ok c →
      c.maps.Pairwise fun x y => signmatch x y = false) := by
  refine ⟨signmatch_comm, ?_, ?_, ?_, ?_⟩
  · intro n pre mid post a b hs
    exact routerInit_error (redundant_of_pair hs)
  · intro n ms r h
    obtain ⟨-, hm, hr⟩ := routerInit_ok h
    rw [hm]
    exact (redundant_false_iff ms).mp hr
  · intro r ds cs c hpw h
    match ds, cs with
    | none, none =>
        cases h
        exact hpw
    | none, some os =>
        obtain ⟨-, hm, hr⟩ := routerInit_ok h
        rw [hm]
        exact (redundant_false_iff _).mp hr
    | some ds0, none =>
        obtain ⟨-, hm, hr⟩ := routerInit_ok h
        rw [hm]
        exact (redundant_false_iff _).mp hr
    | some ds0, some os =>
        obtain ⟨-, hm, hr⟩ := routerInit_ok h
        rw [hm]
        exact (redundant_false_iff _).mp hr
  · intro a b c h
    exact (redundant_false_iff _).mp (rshift_ok h).2.2

/-- Witness for C2: a concrete redundant construction failing, a successful
construction, a constrain and a stage composition preserving the invariant. -/
theorem router_redundancy_invariant_witness :
    routerInit "n"
        ([] ++ (⟨0, 1, id⟩ : Map) :: ([] ++ (⟨0, 1, Nat.succ⟩ : Map) :: []))
      = .error .redundancy ∧
    ((⟨"b", [⟨0, 1, id⟩]⟩ : Router).maps.Pairwise
      fun x y => signmatch x y = false) ∧
    ((⟨"b", [⟨0, 1, id⟩]⟩ : Router).maps.Pairwise
      fun x y => signmatch x y = false) ∧
    ((⟨"b -> b", []⟩ : Router).maps.Pairwise
      fun x y => signmatch x y = false) :=
  ⟨router_redundancy_invariant.2.1 "n" [] [] [] ⟨0, 1, id⟩ ⟨0, 1, Nat.succ⟩ rfl,
   router_redundancy_invariant.2.2.1 "b" [⟨0, 1, id⟩] ⟨"b", [⟨0, 1, id⟩]⟩ rfl,
   router_redundancy_invariant.2.2.2.1 ⟨"b", [⟨0, 1, id⟩]⟩ none none
     ⟨"b", [⟨0, 1, id⟩]⟩ (List.pairwise_singleton _ _) rfl,
   router_redundancy_invariant.2.2.2.2 ⟨"b", [⟨0, 1, id⟩]⟩ ⟨"b", [⟨0, 1, id⟩]⟩
     ⟨"b -> b", []⟩ rfl⟩

/-- Claim C5: stage composition of an empty operand yields the empty router
with the derived name without composing anything, and every successful stage
composition is named `"<left> -> <right>"` and holds exactly the compositions
of the composable pairs of the full member product, left members in original
order outermost, composable right members in original order innermost. -/
theorem router_stage_compose_spec (A B : Router) :
    (A.maps = [] ∨ B.maps = [] →
      Router.rshift A B = .ok ⟨A.name ++ " -> " ++ B.name, []⟩) ∧
    (∀ C : Router, Router.rshift A B = .ok C →
      C.name = A.name ++ " -> " ++ B.name ∧
      C.maps = A.maps.flatMap fun l =>
        (B.maps.filter fun r => composableB l r).map (Map.comp l)) := by
  constructor
  · intro h
    rcases h with h | h
    · simp [Router.rshift, h, routerInit, redundant]
    · simp [Router.rshift, h, routerInit, redundant]
  · intro C h
    exact ⟨(rshift_ok h).1, (rshift_ok h).2.1⟩

/-- Witness for C5: an empty left operand, and a successful composition of
two singleton stages. -/
theorem router_stage_compose_spec_witness :
    Router.rshift ⟨"a", []⟩ ⟨"b", [⟨0, 1, id⟩]⟩
      = .ok ⟨"a" ++ " -> " ++ "b", []⟩ ∧
    ((⟨"x -> y", [Map.comp ⟨0, 1, id⟩ ⟨1, 2, id⟩]⟩ : Router).name
        = "x" ++ " -> " ++ "y" ∧
      (⟨"x -> y", [Map.comp ⟨0, 1, id⟩ ⟨1, 2, id⟩]⟩ : Router).maps
        = [(⟨0, 1, id⟩ : Map)].flatMap fun l =>
            ([(⟨1, 2, id⟩ : Map)].filter fun r => composableB l r).map
              (Map.comp l)) :=
  ⟨(router_stage_compose_spec ⟨"a", []⟩ ⟨"b", [⟨0, 1, id⟩]⟩).1 (Or.inl rfl),
   (router_stage_compose_spec ⟨"x", [⟨0, 1, id⟩]⟩ ⟨"y", [⟨1, 2, id⟩]⟩).2
     ⟨"x -> y", [Map.comp ⟨0, 1, id⟩ ⟨1, 2, id⟩]⟩ rfl⟩

/-- Claim C1: whenever `pcompile` returns a transform, the router obtained
after folding and constraining holds exactly one member, whose domain
is the requested input type and its codomain the requested output type, and
`pcompile` returns that unique member — uniqueness is structural (the
constrained set is a non-redundant set of transforms all sharing the
requested signature), so the result is never a first-match choice among
several candidates. -/
theorem pcompile_unique_route (routers : List Router) (i o : Ty) (m : Map)
    (h : pcompile routers i o = .ok m) :
    ∃ c, pcompileConstrained routers i o = .ok c ∧ c.maps = [m] ∧
      m.domain = i ∧ m.codomain = o := by
  unfold pcompile at h
  split at h
  · cases h
  · next c hc =>
      obtain ⟨hred, hall⟩ := pcompileConstrained_ok hc
      split at h
      · cases h
      · next m0 tl hmaps =>
          cases h
          rcases sig_constant_subsingleton hred hall with hnil | ⟨m1, hone⟩
          · rw [hnil] at hmaps
            cases hmaps
          · rw [hone] at hmaps
            injection hmaps with hm1 htl
            have hmem : m ∈ c.maps := by
              rw [hone, hm1]
              exact List.mem_cons_self m []
            have hsig := hall m hmem
            exact ⟨c, hc, by rw [hone, hm1], hsig.1, hsig.2⟩

/-- Witness for C1: a single singleton stage compiled end to end. -/
theorem pcompile_unique_route_witness :
    ∃ c, pcompileConstrained [⟨"s", [⟨0, 1, id⟩]⟩] 0 1 = .ok c ∧
      c.maps = [(⟨0, 1, id⟩ : Map)] ∧
      (⟨0, 1, id⟩ : Map).domain = 0 ∧ (⟨0, 1, id⟩ : Map).codomain = 1 :=
  pcompile_unique_route [⟨"s", [⟨0, 1, id⟩]⟩] 0 1 ⟨0, 1, id⟩ rfl

/-- Claim C7: whenever the folding-and-constraining part of `pcompile`
returns an empty router, `pcompile` raises `NoRouteError(input, output)`. -/
theorem pcompile_no_route (routers : List Router) (i o : Ty) (c : Router)
    (h1 : pcompileConstrained routers i o = .ok c) (h2 : c.maps = []) :
    pcompile routers i o = .error (.noRoute i o) := by
  simp [pcompile, h1, h2]

/-- Witness for C7: a stage whose only transform does not accept the
requested input type, leaving the constrained router empty. -/
theorem pcompile_no_route_witness :
    pcompile [⟨"s", [⟨0, 1, id⟩]⟩] 2 1 = .error (.noRoute 2 1) :=
  pcompile_no_route [⟨"s", [⟨0, 1, id⟩]⟩] 2 1 ⟨"s", []⟩ rfl rfl

/-- Claim C6 (code bug shown): with two stages whose fold produces two
compositions sharing one signature, `pcompile` re-raises the folding step
`RedundancyError` as `AmbiguousError`, passing the requested types to the
constructor — but `AmbiguousError.__init__` concatenates an f-string first
half with a PLAIN second string (the `f` prefix is missing on the second
literal), so the resulting message keeps the literal placeholder text and
the requested input/output types are dropped: the error does not carry
them. -/
theorem ambiguous_error_drops_types :
    pcompile [⟨"a", [⟨0, 1, id⟩, ⟨0, 2, id⟩]⟩,
              ⟨"b", [⟨1, 3, id⟩, ⟨2, 3, id⟩]⟩] 0 3
      = .error (.ambiguous 0 3) ∧
    (∀ input output : String, ambiguousErrorMessage input output =
      "there are several valid routes from \x7binput\x7d to \x7boutput\x7d") :=
  ⟨rfl, fun _ _ => rfl⟩

/-- Claim C10: on the empty stage list `pcompile` fails with the generic
`ValueError` coming from the `head, *tail = routers` unpacking, before any
route search: for every requested type pair it neither returns a transform
nor raises `NoRouteError` or `AmbiguousError`. -/
theorem pcompile_empty_value_error (i o : Ty) :
    pcompile [] i o = .error .valueError ∧
    (∀ m, ¬ pcompile [] i o = .ok m) ∧
    (∀ i2 o2, ¬ pcompile [] i o = .error (.noRoute i2 o2)) ∧
    (∀ i2 o2, ¬ pcompile [] i o = .error (.ambiguous i2 o2)) := by
  refine ⟨rfl, ?_, ?_, ?_⟩
  · intro m h
    exact Except.noConfusion h
  · intro i2 o2 h
    simp [pcompile, pcompileConstrained] at h
  · intro i2 o2 h
    simp [pcompile, pcompileConstrained] at h
